import Mathlib

/-!
Verification of the Water-Of-Life catalog-ingestion pipeline.

The development shallowly embeds the two executable parts of the pipeline:

* the crawler in `src/spirit_database/bottleraiders/scraper.js`
  (`getSpirits` / `saveAllSpirits`), modelled as a fuel-indexed loop over an
  oracle `service : Nat → FetchResponse α` that yields the JSON payload of
  each page request; and
* the SQL layer: the `spirits` table of `src/migrations/0002_spirits_table.sql`
  (plain `INSERT` into a table whose `uuid` column is `PRIMARY KEY`) and the
  sqlx search query over the fts5 table `spirits_fts`
  (`SELECT ... FROM spirits_fts WHERE name MATCH $1 ORDER BY name DESC LIMIT 20`).

SQLite fts5 semantics embedded here (checked against SQLite 3.40): a MATCH
whose left operand is a column name restricts matching to that column; bare
query terms are case-folded, alphanumeric-delimited tokens combined with
implicit AND; an empty or blank query string is a query-parse error.
-/

/- ## Crawler: getSpirits -/

/-- Payload of one page response: the fields of the scraper's decoded JSON
that the loop reads, namely the page count read from
json["pagination"]["totalPages"] and the record list read from
json["spirits"]. Records are opaque to the crawler, hence the type
parameter. -/
structure FetchResponse (α : Type) where
  totalPages : Int
  spirits : List α
deriving DecidableEq, Repr

/-- State of the do-while loop in getSpirits: the next page number to
request, the running maximum maxPages, the accumulated per-page record
lists (the JS pushes whole page arrays, so this is a list of lists), and,
for specification purposes, the list of page numbers requested so far. -/
structure CrawlState (α : Type) where
  page : Nat
  maxPages : Int
  spirits : List (List α)
  requested : List Nat
deriving DecidableEq, Repr

/-- Initial loop state of getSpirits: page 1, the sentinel maxPages = -1,
nothing accumulated. -/
def crawlInit {α : Type} : CrawlState α :=
  { page := 1, maxPages := -1, spirits := [], requested := [] }

/-- One iteration of the do-while body of getSpirits: fetch the current
page, fold its totalPages into the running maximum via Math.max, push the
page's record array, and advance the page counter. -/
def crawlStep {α : Type} (service : Nat → FetchResponse α) (s : CrawlState α) :
    CrawlState α :=
  let r := service s.page
  { page := s.page + 1
    maxPages := max s.maxPages r.totalPages
    spirits := s.spirits ++ [r.spirits]
    requested := s.requested ++ [s.page] }

/-- The do-while loop of getSpirits, fuel-indexed because the JS loop has
no a-priori termination guarantee: the body runs once, then the loop
continues while page <= maxPages (checked after the body updated both).
Returns none when the fuel runs out before the stop condition holds. -/
def crawlRun {α : Type} (service : Nat → FetchResponse α) :
    Nat → CrawlState α → Option (CrawlState α)
  | 0, _ => none
  | fuel + 1, s =>
    let s' := crawlStep service s
    if (s'.page : Int) ≤ s'.maxPages then crawlRun service fuel s' else some s'

/-- Embedding of getSpirits(variety): run the loop from the initial state
and return the accumulated array of page arrays. -/
def getSpirits {α : Type} (service : Nat → FetchResponse α) (fuel : Nat) :
    Option (List (List α)) :=
  (crawlRun service fuel crawlInit).map CrawlState.spirits

/-- State of the loop after exactly k executions of the body, ignoring the
stop condition; crawlRun only ever passes through these states. -/
def crawlTrace {α : Type} (service : Nat → FetchResponse α) : Nat → CrawlState α
  | 0 => crawlInit
  | k + 1 => crawlStep service (crawlTrace service k)

/-- The totalPages values observed after k iterations, in request order. -/
def observedTotals {α : Type} (service : Nat → FetchResponse α) (k : Nat) :
    List Int :=
  (crawlTrace service k).requested.map fun p => (service p).totalPages

/- ## Invariants of the crawl loop -/

theorem crawlRun_spirits_eq_requested {α : Type} (service : Nat → FetchResponse α) :
    ∀ (fuel : Nat) (s₀ s : CrawlState α),
      crawlRun service fuel s₀ = some s →
      s₀.spirits = s₀.requested.map (fun p => (service p).spirits) →
      s.spirits = s.requested.map (fun p => (service p).spirits) := by
  intro fuel
  induction fuel with
  | zero => intro s₀ s h; simp [crawlRun] at h
  | succ n ih =>
    intro s₀ s h h₀
    rw [crawlRun] at h
    have hstep : (crawlStep service s₀).spirits =
        (crawlStep service s₀).requested.map (fun p => (service p).spirits) := by
      simp [crawlStep, h₀]
    by_cases hc : ((crawlStep service s₀).page : Int) ≤ (crawlStep service s₀).maxPages
    · rw [if_pos hc] at h
      exact ih _ _ h hstep
    · rw [if_neg hc] at h
      cases h
      exact hstep

/-- C2: for every service oracle and every completed crawl, the flat record
sequence persisted by saveAllSpirits (results.flat()) has length equal to the
sum of the item counts of exactly the pages that were requested. -/
theorem crawl_flat_length_eq_sum_of_fetched {α : Type}
    (service : Nat → FetchResponse α) (fuel : Nat) (s : CrawlState α)
    (h : crawlRun service fuel crawlInit = some s) :
    s.spirits.flatten.length =
      (s.requested.map fun p => (service p).spirits.length).sum := by
  have hs : s.spirits = s.requested.map (fun p => (service p).spirits) :=
    crawlRun_spirits_eq_requested service fuel crawlInit s h (by simp [crawlInit])
  rw [hs]
  simp only [List.length_flatten, List.map_map]
  rfl

/-- The gin scenario oracle: every page reports totalPages = 2 and carries
50 records. -/
def ginService : Nat → FetchResponse Nat := fun _ => ⟨2, List.range 50⟩

/-- Final crawl state of the gin scenario. -/
def ginFinal : CrawlState Nat :=
  { page := 3, maxPages := 2
    spirits := [List.range 50, List.range 50], requested := [1, 2] }

/-- Witness for C2, instantiated at the gin scenario of the spec: the crawl
completes after requesting exactly pages 1 and 2 (page 3 is never
requested) and the flattened result has 100 records. -/
theorem crawl_flat_length_eq_sum_of_fetched_witness :
    crawlRun ginService 2 crawlInit = some ginFinal ∧
    ginFinal.spirits.flatten.length =
      (ginFinal.requested.map fun p => (ginService p).spirits.length).sum ∧
    ginFinal.requested = [1, 2] ∧
    ginFinal.spirits.flatten.length = 100 := by
  refine ⟨by decide, ?_, by decide, by decide⟩
  exact crawl_flat_length_eq_sum_of_fetched ginService 2 ginFinal (by decide)

/- ## Termination of the crawl loop (C3) -/

/-- An adversarial service whose every page claims one more page than the
page just requested. -/
def divergentService : Nat → FetchResponse Unit := fun p => ⟨(p : Int) + 1, []⟩

/-- The crawl of a service never completes when no amount of fuel makes the
loop reach its stop condition. -/
def crawlNeverCompletes (service : Nat → FetchResponse Unit) : Prop :=
  ∀ fuel : Nat, getSpirits service fuel = none

theorem crawlRun_divergent_eq_none :
    ∀ (fuel : Nat) (s : CrawlState Unit), crawlRun divergentService fuel s = none := by
  intro fuel
  induction fuel with
  | zero => intro s; rfl
  | succ n ih =>
    intro s
    rw [crawlRun]
    have hc : ((crawlStep divergentService s).page : Int) ≤
        (crawlStep divergentService s).maxPages := by
      simp only [crawlStep, divergentService]
      push_cast
      exact le_max_of_le_right (by omega)
    rw [if_pos hc]
    exact ih _

/-- Counterexample to C3 as stated: there is a sequence of page responses
(each page reporting totalPages one greater than the page number) on which
the do-while loop of getSpirits never terminates. -/
theorem crawl_termination_counterexample : crawlNeverCompletes divergentService := by
  intro fuel
  unfold getSpirits
  rw [crawlRun_divergent_eq_none]
  rfl

theorem crawlRun_final_stop {α : Type} (service : Nat → FetchResponse α) :
    ∀ (fuel : Nat) (s₀ s : CrawlState α),
      crawlRun service fuel s₀ = some s → s.maxPages < (s.page : Int) := by
  intro fuel
  induction fuel with
  | zero => intro s₀ s h; simp [crawlRun] at h
  | succ n ih =>
    intro s₀ s h
    rw [crawlRun] at h
    by_cases hc : ((crawlStep service s₀).page : Int) ≤ (crawlStep service s₀).maxPages
    · rw [if_pos hc] at h
      exact ih _ _ h
    · rw [if_neg hc] at h
      cases h
      omega

theorem crawlRun_requested_range {α : Type} (service : Nat → FetchResponse α) :
    ∀ (fuel : Nat) (s₀ s : CrawlState α),
      crawlRun service fuel s₀ = some s →
      1 ≤ s₀.page → s₀.requested = List.range' 1 (s₀.page - 1) →
      1 ≤ s.page ∧ s₀.page < s.page ∧ s.requested = List.range' 1 (s.page - 1) := by
  intro fuel
  induction fuel with
  | zero => intro s₀ s h; simp [crawlRun] at h
  | succ n ih =>
    intro s₀ s h h₁ h₂
    rw [crawlRun] at h
    have hstep₁ : 1 ≤ (crawlStep service s₀).page := by
      simp only [crawlStep]; omega
    have hstep₂ : (crawlStep service s₀).requested =
        List.range' 1 ((crawlStep service s₀).page - 1) := by
      simp only [crawlStep, h₂]
      have : s₀.page + 1 - 1 = (s₀.page - 1) + 1 := by omega
      rw [this, List.range'_1_concat]
      congr 1
      simp
      omega
    by_cases hc : ((crawlStep service s₀).page : Int) ≤ (crawlStep service s₀).maxPages
    · rw [if_pos hc] at h
      have := ih _ _ h hstep₁ hstep₂
      refine ⟨this.1, ?_, this.2.2⟩
      have : (crawlStep service s₀).page < s.page ∨
          (crawlStep service s₀).page = s.page := by omega
      simp only [crawlStep] at this ⊢
      omega
    · rw [if_neg hc] at h
      cases h
      simp only [crawlStep] at hstep₂ ⊢
      exact ⟨hstep₁, by omega, hstep₂⟩

theorem crawlRun_bounded_terminates {α : Type} (service : Nat → FetchResponse α)
    (B : Int) (hB : ∀ p, (service p).totalPages ≤ B) :
    ∀ (fuel : Nat) (s₀ : CrawlState α),
      s₀.maxPages ≤ B → 1 ≤ fuel → B.toNat + 1 ≤ fuel + s₀.page →
      ∃ s, crawlRun service fuel s₀ = some s ∧ s.page ≤ max (s₀.page + 1) (B.toNat + 1) := by
  intro fuel
  induction fuel with
  | zero => intro s₀ _ h1 _; omega
  | succ n ih =>
    intro s₀ hm _ hfuel
    rw [crawlRun]
    by_cases hc : ((crawlStep service s₀).page : Int) ≤ (crawlStep service s₀).maxPages
    · rw [if_pos hc]
      have hm' : (crawlStep service s₀).maxPages ≤ B := by
        simp only [crawlStep]
        exact max_le hm (hB s₀.page)
      have hpage : ((s₀.page : Int) + 1) ≤ B := by
        simp only [crawlStep] at hc hm'
        push_cast at hc
        omega
      have hn : 1 ≤ n := by omega
      have hfuel' : B.toNat + 1 ≤ n + (crawlStep service s₀).page := by
        simp only [crawlStep]
        omega
      obtain ⟨s, hs, hb⟩ := ih (crawlStep service s₀) hm' hn hfuel'
      refine ⟨s, hs, ?_⟩
      simp only [crawlStep] at hb
      omega
    · rw [if_neg hc]
      exact ⟨crawlStep service s₀, rfl, by simp only [crawlStep]; omega⟩

/-- C3 amended: for every service oracle whose reported totalPages values are
bounded by B, the crawl loop terminates after at most max 1 B.toNat page
requests; the pages requested are exactly 1, 2, ..., n for some n with
1 ≤ n ≤ max 1 B.toNat — in particular the page-1 request is issued exactly
once even when totalPages is reported as 0 or below — and at the stop the
next page number strictly exceeds the running-maximum totalPages. -/
theorem crawl_terminates_of_bounded_totalPages {α : Type}
    (service : Nat → FetchResponse α) (B : Int)
    (hB : ∀ p, (service p).totalPages ≤ B) :
    ∃ s : CrawlState α, crawlRun service (B.toNat + 1) crawlInit = some s ∧
      s.requested = List.range' 1 s.requested.length ∧
      1 ≤ s.requested.length ∧ s.requested.length ≤ max 1 B.toNat ∧
      s.requested.count 1 = 1 ∧
      s.maxPages < (s.page : Int) := by
  have hBB : ∀ p, (service p).totalPages ≤ max B 0 :=
    fun p => le_trans (hB p) (le_max_left B 0)
  have htn : (max B 0).toNat = B.toNat := by omega
  obtain ⟨s, hs, hb⟩ := crawlRun_bounded_terminates service (max B 0) hBB (B.toNat + 1)
    crawlInit
    (le_trans (show (crawlInit : CrawlState α).maxPages ≤ 0 by norm_num [crawlInit])
      (le_max_right B 0))
    (by omega)
    (by simp only [crawlInit]; omega)
  obtain ⟨h1, h2, h3⟩ := crawlRun_requested_range service (B.toNat + 1) crawlInit s hs
    (by simp [crawlInit]) (by simp [crawlInit])
  have hlen : s.requested.length = s.page - 1 := by rw [h3]; simp
  refine ⟨s, hs, ?_, ?_, ?_, ?_, crawlRun_final_stop service _ _ _ hs⟩
  · rw [hlen]; exact h3
  · simp only [crawlInit] at h2; omega
  · simp only [crawlInit] at hb h2; omega
  · rw [h3]
    have hnd : (List.range' 1 (s.page - 1)).Nodup := List.nodup_range' 1 (s.page - 1)
    have hmem : 1 ∈ List.range' 1 (s.page - 1) := by
      rw [List.mem_range'_1]
      simp only [crawlInit] at h2
      omega
    have hle := List.nodup_iff_count_le_one.mp hnd 1
    have hpos := List.count_pos_iff.mpr hmem
    omega

/-- A concrete bounded service: every page reports totalPages = 0. -/
def zeroPagesService : Nat → FetchResponse Unit := fun _ => ⟨0, []⟩

/-- Witness for the amended C3 at a concrete bounded service that reports
totalPages = 0: the loop still terminates after issuing the page-1 request
exactly once. -/
theorem crawl_terminates_of_bounded_totalPages_witness :
    ∃ s : CrawlState Unit, crawlRun zeroPagesService ((0 : Int).toNat + 1) crawlInit = some s ∧
      s.requested = List.range' 1 s.requested.length ∧
      1 ≤ s.requested.length ∧ s.requested.length ≤ max 1 (0 : Int).toNat ∧
      s.requested.count 1 = 1 ∧
      s.maxPages < (s.page : Int) :=
  crawl_terminates_of_bounded_totalPages zeroPagesService 0 (fun _ => Int.le_refl 0)

/- ## Running maximum of totalPages (C8) -/

theorem crawlTrace_page {α : Type} (service : Nat → FetchResponse α) (k : Nat) :
    (crawlTrace service k).page = k + 1 := by
  induction k with
  | zero => rfl
  | succ n ih => simp [crawlTrace, crawlStep, ih]

theorem crawlTrace_requested {α : Type} (service : Nat → FetchResponse α) (k : Nat) :
    (crawlTrace service k).requested = List.range' 1 k := by
  induction k with
  | zero => rfl
  | succ n ih =>
    simp only [crawlTrace, crawlStep, ih, crawlTrace_page]
    rw [List.range'_1_concat, Nat.add_comm 1 n]

theorem crawlTrace_maxPages_foldl {α : Type} (service : Nat → FetchResponse α) (k : Nat) :
    (crawlTrace service k).maxPages = (observedTotals service k).foldl max (-1) := by
  induction k with
  | zero => rfl
  | succ n ih =>
    simp only [crawlTrace, crawlStep, ih, observedTotals, crawlTrace_requested,
      crawlTrace_page, List.range'_1_concat, List.map_append, List.foldl_append,
      List.map_cons, List.map_nil, List.foldl_cons, List.foldl_nil]

theorem max?_eq_foldl_of_nonneg (l : List Int) (h : ∀ x ∈ l, 0 ≤ x) (hne : l ≠ []) :
    l.max? = some (l.foldl max (-1)) := by
  cases l with
  | nil => exact absurd rfl hne
  | cons a as =>
    rw [List.max?_cons']
    congr 1
    rw [List.foldl_cons,
      max_eq_right (le_trans (by norm_num) (h a (List.mem_cons_self a as)))]

/-- C8: within one crawl, provided the service reports non-negative page
counts, after each fetched page the loop's maxPages equals the maximum of
all totalPages values observed so far, and the value is monotonically
non-decreasing from one page to the next. -/
theorem crawl_maxPages_is_running_max {α : Type} (service : Nat → FetchResponse α)
    (hnn : ∀ p, 0 ≤ (service p).totalPages) (k : Nat) :
    (observedTotals service (k + 1)).max? = some ((crawlTrace service (k + 1)).maxPages) ∧
    (crawlTrace service k).maxPages ≤ (crawlTrace service (k + 1)).maxPages := by
  constructor
  · rw [crawlTrace_maxPages_foldl]
    refine max?_eq_foldl_of_nonneg _ ?_ ?_
    · intro x hx
      simp only [observedTotals, List.mem_map] at hx
      obtain ⟨p, _, rfl⟩ := hx
      exact hnn p
    · simp [observedTotals, crawlTrace_requested]
  · simp only [crawlTrace, crawlStep]
    exact le_max_left _ _

/-- A concrete service for the C8 witness: every page reports two total
pages and one record. -/
def constPagesService : Nat → FetchResponse Unit := fun _ => ⟨2, [()]⟩

/-- Witness for C8 at a concrete service and the first fetched page. -/
theorem crawl_maxPages_is_running_max_witness :
    (observedTotals constPagesService 1).max? = some ((crawlTrace constPagesService 1).maxPages) ∧
    (crawlTrace constPagesService 0).maxPages ≤ (crawlTrace constPagesService 1).maxPages :=
  crawl_maxPages_is_running_max constPagesService
    (fun _ => show (0 : Int) ≤ 2 by norm_num) 0

/- ## Query engine: the spirits_fts search query -/

/-- Row shape of the full-text index spirits_fts and of the search result:
the columns selected by the query (uuid, name, distiller, bottler, type;
the last is aliased typ in the query's column annotations). -/
structure IndexEntry where
  uuid : String
  name : String
  distiller : String
  bottler : String
  typ : String
deriving DecidableEq, Repr

/-- Error raised by the fts5 query parser; an empty or blank MATCH string
raises it. -/
inductive QueryError where
  | malformedMatchExpr
deriving DecidableEq, Repr

/-- Word splitter of the fts5 default unicode61 tokenizer restricted to the
repository's data: maximal runs of alphanumeric characters are tokens,
every other character separates tokens. First argument is the text still
to scan, second the current run, most recent character first. -/
def wordsAux : List Char → List Char → List (List Char)
  | [], acc => if acc.isEmpty then [] else [acc.reverse]
  | c :: rest, acc =>
    if c.isAlphanum then wordsAux rest (c :: acc)
    else if acc.isEmpty then wordsAux rest [] else acc.reverse :: wordsAux rest []

/-- Tokenization used by the index: case-folded, alphanumeric-delimited. -/
def tokenize (s : String) : List String :=
  (wordsAux (s.toList.map Char.toLower) []).map List.asString

/-- Matching of a bare fts5 query against one column: whitespace-separated
bare terms combine with implicit AND, each term must occur as a token of
the column's text. The query of the source names the column name on the
left of MATCH, which in fts5 restricts matching to that one column. -/
def nameMatches (term : String) (e : IndexEntry) : Bool :=
  (tokenize term).all fun t => (tokenize e.name).contains t

/-- Lexicographic less-or-equal on character lists, the order SQLite's
BINARY collation induces on the repository's text values. -/
def charListLe : List Char → List Char → Bool
  | [], _ => true
  | _ :: _, [] => false
  | a :: as, b :: bs => if a < b then true else if b < a then false else charListLe as bs

/-- Computation of charListLe agrees with the lexicographic order on
strings. -/
theorem charListLe_iff_le :
    ∀ s t : List Char, charListLe s t = true ↔ ¬ List.lt t s := by
  intro s
  induction s with
  | nil =>
    intro t
    refine iff_of_true rfl fun h => ?_
    cases h
  | cons a as ih =>
    intro t
    cases t with
    | nil =>
      refine iff_of_false (by simp [charListLe]) fun h => h (List.lt.nil a as)
    | cons b bs =>
      show (if a < b then true else if b < a then false else charListLe as bs) = true ↔
        ¬ List.lt (b :: bs) (a :: as)
      by_cases hab : a < b
      · rw [if_pos hab]
        refine iff_of_true rfl fun h => ?_
        cases h with
        | head as' bs' h' => exact absurd hab (lt_asymm h')
        | tail h₁ h₂ h₃ => exact h₂ hab
      · rw [if_neg hab]
        by_cases hba : b < a
        · rw [if_pos hba]
          refine iff_of_false (by simp) fun h => h (List.lt.head bs as hba)
        · rw [if_neg hba]
          rw [ih bs]
          constructor
          · intro h hlt
            cases hlt with
            | head as' bs' h' => exact hba h'
            | tail h₁ h₂ h₃ => exact h h₃
          · intro h hlt
            exact h (List.lt.tail hba hab hlt)

/-- Comparison realising ORDER BY name DESC: true when the second entry's
name is lexicographically at most the first entry's name. -/
def byNameDesc (a b : IndexEntry) : Bool := charListLe b.name.data a.name.data

/-- byNameDesc a b holds exactly when b.name is at most a.name in the
string order. -/
theorem byNameDesc_iff (a b : IndexEntry) : byNameDesc a b = true ↔ b.name ≤ a.name := by
  show charListLe b.name.data a.name.data = true ↔ b.name ≤ a.name
  rw [charListLe_iff_le, String.le_iff_toList_le, ← not_lt]
  exact not_congr (List.lt_iff_lex_lt _ _)

/-- Embedding of the search query
SELECT uuid, name, distiller, bottler, type FROM spirits_fts
WHERE name MATCH $1 ORDER BY name DESC LIMIT 20.
The index contents are given as the list of rows in insertion order; the
sort is the stable mergeSort, matching SQLite's stable-by-rowid output
order for rows with equal names. An empty or blank term is a parse error
of the MATCH expression. -/
def searchSpirits (term : String) (db : List IndexEntry) :
    Except QueryError (List IndexEntry) :=
  match tokenize term with
  | [] => Except.error QueryError.malformedMatchExpr
  | _ => Except.ok (((db.filter (nameMatches term)).mergeSort byNameDesc).take 20)

theorem byNameDesc_trans :
    ∀ a b c : IndexEntry, byNameDesc a b → byNameDesc b c → byNameDesc a c := by
  intro a b c h1 h2
  rw [byNameDesc_iff] at h1 h2 ⊢
  exact le_trans h2 h1

theorem byNameDesc_total : ∀ a b : IndexEntry, byNameDesc a b || byNameDesc b a := by
  intro a b
  rw [Bool.or_eq_true, byNameDesc_iff, byNameDesc_iff]
  exact le_total b.name a.name

theorem searchSpirits_ok_shape (term : String) (db res : List IndexEntry)
    (h : searchSpirits term db = Except.ok res) :
    res = ((db.filter (nameMatches term)).mergeSort byNameDesc).take 20 := by
  unfold searchSpirits at h
  cases htok : tokenize term with
  | nil => rw [htok] at h; cases h
  | cons t ts =>
    rw [htok] at h
    exact (Except.ok.inj h).symm

/-- C1 amended: the query matches the search term against the name column
only — in fts5, a column name on the left of MATCH restricts the match to
that column. Every returned entry comes from the index and its name
contains the term's tokens; an entry matching only in distiller, bottler
or type is never returned. -/
theorem search_results_match_name_only (term : String) (db res : List IndexEntry)
    (e : IndexEntry) (h : searchSpirits term db = Except.ok res) (he : e ∈ res) :
    e ∈ db ∧ nameMatches term e = true := by
  rw [searchSpirits_ok_shape term db res h] at he
  have h1 : e ∈ (db.filter (nameMatches term)).mergeSort byNameDesc :=
    List.mem_of_mem_take he
  rw [List.mem_mergeSort] at h1
  exact List.mem_filter.mp h1

/-- An entry whose name lacks the search term but whose distiller contains
it. -/
def highlandPark12 : IndexEntry :=
  ⟨"uuid-hp12", "Highland Park 12", "Macallan Distillery", "Edrington", "Single Malt"⟩

/-- Counterexample to C1 as stated: the entry's distiller contains the term
"macallan", yet the search returns no rows — the term is only evaluated
against the name column. -/
theorem search_distiller_match_not_returned :
    ((tokenize "macallan").all fun t => (tokenize highlandPark12.distiller).contains t) = true ∧
    searchSpirits "macallan" [highlandPark12] = Except.ok [] := by
  constructor
  · decide
  · show Except.ok ((List.mergeSort ([] : List IndexEntry) byNameDesc).take 20) = Except.ok []
    rw [List.mergeSort_nil]
    rfl

/- ## Empty search term (C4) -/

theorem wordsAux_eq_nil_of_no_alnum :
    ∀ cs : List Char, (∀ c ∈ cs, c.isAlphanum = false) → wordsAux cs [] = [] := by
  intro cs
  induction cs with
  | nil => intro _; rfl
  | cons c rest ih =>
    intro h
    have hc : ¬ (c.isAlphanum = true) := by
      rw [h c (List.mem_cons_self c rest)]
      simp
    rw [wordsAux, if_neg hc]
    show wordsAux rest [] = []
    exact ih fun c' hc' => h c' (List.mem_cons_of_mem c hc')

/-- C4 amended: a term with no alphanumeric character (the empty term, or a
blank one) produces an empty fts5 query, which the query parser rejects
with an error — the search is not an empty-result success. -/
theorem search_blank_term_is_error (term : String) (db : List IndexEntry)
    (h : ∀ c ∈ term.toList, (Char.toLower c).isAlphanum = false) :
    searchSpirits term db = Except.error QueryError.malformedMatchExpr := by
  have htok : tokenize term = [] := by
    unfold tokenize
    rw [wordsAux_eq_nil_of_no_alnum]
    · rfl
    · intro c hc
      rw [List.mem_map] at hc
      obtain ⟨c₀, hc₀, rfl⟩ := hc
      exact h c₀ hc₀
  unfold searchSpirits
  rw [htok]

/-- Witness for the amended C4 at the blank term of one space. -/
theorem search_blank_term_is_error_witness :
    searchSpirits " " [] = Except.error QueryError.malformedMatchExpr :=
  search_blank_term_is_error " " [] (by decide)

/- ## Sample index shared by the search theorems -/

def macallan12 : IndexEntry :=
  ⟨"uuid-m12", "Macallan 12", "The Macallan", "The Macallan", "Single Malt"⟩

def macallan18 : IndexEntry :=
  ⟨"uuid-m18", "Macallan 18", "The Macallan", "The Macallan", "Single Malt"⟩

def glenlivet12 : IndexEntry :=
  ⟨"uuid-g12", "Glenlivet 12", "The Glenlivet", "The Glenlivet", "Single Malt"⟩

def sampleDb : List IndexEntry := [macallan18, macallan12, glenlivet12]

theorem searchSpirits_sample :
    searchSpirits "macallan" sampleDb = Except.ok [macallan18, macallan12] := by
  show Except.ok ((List.mergeSort [macallan18, macallan12] byNameDesc).take 20) =
    Except.ok [macallan18, macallan12]
  rw [List.mergeSort_of_sorted (by decide)]
  rfl

/-- Counterexample to C4 as stated: on a non-empty index, the empty search
term yields a query error, not an empty success. -/
theorem search_empty_term_errors :
    searchSpirits "" sampleDb = Except.error QueryError.malformedMatchExpr ∧
    searchSpirits " " sampleDb = Except.error QueryError.malformedMatchExpr :=
  ⟨rfl, rfl⟩

/-- Witness for the amended C1: a returned entry indeed comes from the index
and its name contains the term. -/
theorem search_results_match_name_only_witness :
    macallan18 ∈ sampleDb ∧ nameMatches "macallan" macallan18 = true :=
  search_results_match_name_only "macallan" sampleDb [macallan18, macallan12]
    macallan18 searchSpirits_sample (List.mem_cons_self macallan18 [macallan12])

/- ## Result ordering and stability (C5) and result bound (C6) -/

theorem charListLe_refl : ∀ cs : List Char, charListLe cs cs = true := by
  intro cs
  induction cs with
  | nil => rfl
  | cons a as ih =>
    show (if a < a then true else if a < a then false else charListLe as as) = true
    rw [if_neg (lt_irrefl a), if_neg (lt_irrefl a)]
    exact ih

theorem byNameDesc_of_name_eq {a b : IndexEntry} (h : a.name = b.name) :
    byNameDesc a b = true := by
  show charListLe b.name.data a.name.data = true
  rw [h]
  exact charListLe_refl b.name.data

theorem mergeSort_filter_name_eq (l : List IndexEntry) (n : String) :
    (l.mergeSort byNameDesc).filter (fun e => e.name == n) =
      l.filter (fun e => e.name == n) := by
  have hpc : (l.filter fun e => e.name == n).Pairwise (fun a b => byNameDesc a b = true) := by
    refine List.pairwise_of_forall_mem_list fun a ha b hb => ?_
    have ha' := (List.mem_filter.mp ha).2
    have hb' := (List.mem_filter.mp hb).2
    exact byNameDesc_of_name_eq ((eq_of_beq ha').trans (eq_of_beq hb').symm)
  have hsub : List.Sublist (l.filter fun e => e.name == n) (l.mergeSort byNameDesc) :=
    List.sublist_mergeSort byNameDesc_trans byNameDesc_total hpc (List.filter_sublist l)
  have hself : (l.filter fun e => e.name == n).filter (fun e => e.name == n) =
      l.filter (fun e => e.name == n) :=
    List.filter_eq_self.mpr fun a ha => (List.mem_filter.mp ha).2
  have hsubf : List.Sublist (l.filter fun e => e.name == n)
      ((l.mergeSort byNameDesc).filter (fun e => e.name == n)) := by
    have := hsub.filter (fun e => e.name == n)
    rwa [hself] at this
  have hperm : List.Perm ((l.mergeSort byNameDesc).filter (fun e => e.name == n))
      (l.filter (fun e => e.name == n)) :=
    (List.mergeSort_perm l byNameDesc).filter _
  exact (hsubf.eq_of_length hperm.length_eq.symm).symm

/-- C5: every successful search result is sorted by name in descending
lexicographic order — whenever a precedes b in the result, b's name is at
most a's — and results with equal names keep their index (insertion)
order: for every name, the result's rows of that name form a sublist of
the index's rows of that name, in order. -/
theorem search_ordered_desc_and_stable (term : String) (db res : List IndexEntry)
    (h : searchSpirits term db = Except.ok res) :
    res.Pairwise (fun a b => b.name ≤ a.name) ∧
    ∀ n : String,
      (res.filter fun e => e.name == n).Sublist (db.filter fun e => e.name == n) := by
  rw [searchSpirits_ok_shape term db res h]
  constructor
  · have hsorted := List.sorted_mergeSort byNameDesc_trans byNameDesc_total
      (db.filter (nameMatches term))
    have htake := hsorted.sublist (List.take_sublist 20 _)
    exact htake.imp fun hab => (byNameDesc_iff _ _).mp hab
  · intro n
    have h1 : List.Sublist ((((db.filter (nameMatches term)).mergeSort byNameDesc).take 20).filter
        (fun e => e.name == n))
        (((db.filter (nameMatches term)).mergeSort byNameDesc).filter (fun e => e.name == n)) :=
      (List.take_sublist 20 _).filter _
    rw [mergeSort_filter_name_eq] at h1
    refine h1.trans ?_
    exact (List.filter_sublist db).filter _

/-- Witness for C5 at the spec's scenario index: the two returned Macallan
rows are in descending name order and equal-name rows keep index order. -/
theorem search_ordered_desc_and_stable_witness :
    ([macallan18, macallan12] : List IndexEntry).Pairwise (fun a b => b.name ≤ a.name) ∧
    ∀ n : String,
      (([macallan18, macallan12] : List IndexEntry).filter fun e => e.name == n).Sublist
        (sampleDb.filter fun e => e.name == n) :=
  search_ordered_desc_and_stable "macallan" sampleDb [macallan18, macallan12]
    searchSpirits_sample

/-- C6: a successful search never returns more than 20 rows (LIMIT 20). -/
theorem search_at_most_twenty (term : String) (db res : List IndexEntry)
    (h : searchSpirits term db = Except.ok res) : res.length ≤ 20 := by
  rw [searchSpirits_ok_shape term db res h]
  exact List.length_take_le 20 _

/-- Witness for C6 at the sample index. -/
theorem search_at_most_twenty_witness :
    ([macallan18, macallan12] : List IndexEntry).length ≤ 20 :=
  search_at_most_twenty "macallan" sampleDb [macallan18, macallan12] searchSpirits_sample

/- ## Catalog Store: the spirits table (C7) -/

/-- Row shape of the spirits table of migration 0002: uuid TEXT PRIMARY
KEY, then name, description, distiller, bottler, type, abv, age, all NOT
NULL. The REAL column abv is modelled as a rational, since no property
here depends on floating-point rounding. -/
structure Spirit where
  uuid : String
  name : String
  description : String
  distiller : String
  bottler : String
  typ : String
  abv : Rat
  age : String
deriving DecidableEq, Repr

/-- Errors the persistence layer can raise on a write. -/
inductive StoreError where
  | uniqueViolation
deriving DecidableEq, Repr

/-- Embedding of a plain INSERT INTO spirits, as issued by migration 0002:
the uuid column is declared PRIMARY KEY, so SQLite rejects a row whose
uuid already exists with a UNIQUE-constraint error; there is no ON
CONFLICT clause, so nothing is replaced or merged. The table is the list
of rows in insertion order. -/
def insertSpirit (table : List Spirit) (s : Spirit) : Except StoreError (List Spirit) :=
  if table.any fun r => r.uuid == s.uuid then Except.error StoreError.uniqueViolation
  else Except.ok (table ++ [s])

/-- C7 amended: uuid uniqueness does hold — an insert preserves the
invariant that no two rows share a uuid — but a write whose uuid already
exists is rejected with a UNIQUE-constraint StoreError and the existing
row is kept unchanged: the earlier write wins, nothing is replaced or
merged. -/
theorem insertSpirit_unique_and_rejects_duplicates (table : List Spirit) (s : Spirit)
    (h : (table.map Spirit.uuid).Nodup) :
    (∀ t', insertSpirit table s = Except.ok t' → (t'.map Spirit.uuid).Nodup) ∧
    (∀ r ∈ table, r.uuid = s.uuid →
      insertSpirit table s = Except.error StoreError.uniqueViolation) := by
  constructor
  · intro t' ht'
    unfold insertSpirit at ht'
    by_cases hany : table.any fun r => r.uuid == s.uuid
    · rw [if_pos hany] at ht'
      cases ht'
    · rw [if_neg hany] at ht'
      cases ht'
      rw [List.map_append, List.map_singleton]
      rw [List.nodup_append]
      refine ⟨h, List.nodup_singleton _, ?_⟩
      intro u hu hmem
      rw [List.mem_singleton] at hmem
      subst hmem
      rw [List.mem_map] at hu
      obtain ⟨r, hr, hru⟩ := hu
      rw [List.any_eq_true] at hany
      exact hany ⟨r, hr, beq_iff_eq.mpr hru⟩
  · intro r hr hru
    have hany : (table.any fun x => x.uuid == s.uuid) = true := by
      rw [List.any_eq_true]
      exact ⟨r, hr, beq_iff_eq.mpr hru⟩
    unfold insertSpirit
    rw [if_pos hany]

/-- An existing row. -/
def firstSpirit : Spirit :=
  ⟨"uuid-x", "first name", "", "dist-a", "bot-a", "whiskey", 40, "12"⟩

/-- A later write carrying the same uuid but different field values. -/
def secondSpirit : Spirit :=
  ⟨"uuid-x", "second name", "", "dist-b", "bot-b", "rum", 43, "18"⟩

/-- Counterexample to C7 as stated: inserting an entry whose id already
exists does not replace the existing row — the write fails with a
UNIQUE-constraint error and the table still carries the first row. -/
theorem insertSpirit_duplicate_fails_not_replaces :
    insertSpirit [firstSpirit] secondSpirit = Except.error StoreError.uniqueViolation ∧
    firstSpirit.name = "first name" ∧ secondSpirit.uuid = firstSpirit.uuid := by
  refine ⟨rfl, rfl, rfl⟩

/-- Witness for the amended C7 at a concrete one-row table. -/
theorem insertSpirit_unique_and_rejects_duplicates_witness :
    (∀ t', insertSpirit [firstSpirit] secondSpirit = Except.ok t' →
      (t'.map Spirit.uuid).Nodup) ∧
    (∀ r ∈ [firstSpirit], r.uuid = secondSpirit.uuid →
      insertSpirit [firstSpirit] secondSpirit = Except.error StoreError.uniqueViolation) :=
  insertSpirit_unique_and_rejects_duplicates [firstSpirit] secondSpirit (by decide)

/- ## saveAllSpirits: the ingestion loop (C9, C10) -/

/-- Failure while crawling one category: the fetch rejecting (transport)
or response.json() rejecting (decode). Either rejects the awaited promise
inside getSpirits and aborts it with no partial result. -/
inductive CrawlError where
  | transport
  | decode
deriving DecidableEq, Repr

/-- Observable outcome of one saveAllSpirits run. crawled lists the
categories for which getSpirits was invoked, in order; written lists the
artifacts the loop handed to writeFile (category and flattened records);
thrown lists the errors re-thrown from writeFile callbacks (they surface
as uncaught exceptions, outside the loop's control flow); fatal carries
the crawl error that rejected the run's promise, if any. -/
structure RunOutcome (α ε : Type) where
  crawled : List String
  written : List (String × List α)
  thrown : List ε
  fatal : Option CrawlError
deriving DecidableEq, Repr

/-- Control-flow model of saveAllSpirits(varieties), recording what the
loop itself awaits and initiates: for each variety in order, getSpirits is
awaited — a crawl failure rejects the whole run at once, so later
varieties are never reached — then writeFile is called with the flattened
results and not awaited, the loop moving on regardless of the write's
eventual outcome. thrown records the errors the write callbacks re-throw;
this model keeps the loop's bookkeeping running past them and does not
model the process termination those uncaught exceptions cause — that
refinement is saveAllSpiritsRun below, which agrees with this model on
every run free of write errors
(saveAllSpiritsRun_agrees_without_write_errors). The oracle crawl gives
each category's crawl result and writeResult the error, if any, its file
write will report. -/
def saveAllSpirits {α ε : Type} (crawl : String → Except CrawlError (List (List α)))
    (writeResult : String → Option ε) : List String → RunOutcome α ε
  | [] => ⟨[], [], [], none⟩
  | v :: vs =>
    match crawl v with
    | Except.error e => ⟨[v], [], [], some e⟩
    | Except.ok results =>
      let rest := saveAllSpirits crawl writeResult vs
      match writeResult v with
      | some e => ⟨v :: rest.crawled, rest.written, e :: rest.thrown, rest.fatal⟩
      | none => ⟨v :: rest.crawled, (v, results.flatten) :: rest.written,
          rest.thrown, rest.fatal⟩

/-- How a saveAllSpirits run ends: normal completion, the promise
rejection a crawl failure causes, or process death from the uncaught
exception a failing write's callback throws. -/
inductive RunEnd (ε : Type) where
  | completed
  | crawlRejected (e : CrawlError)
  | writeCrashed (e : ε)
deriving DecidableEq, Repr

/-- Outcome of one saveAllSpirits run under process semantics:
crawlsStarted lists the categories whose getSpirits call was invoked, in
order; written the artifacts actually persisted; endState how the run
ended. -/
structure ProcessOutcome (α ε : Type) where
  crawlsStarted : List String
  written : List (String × List α)
  endState : RunEnd ε
deriving DecidableEq, Repr

/-- Run model of saveAllSpirits with the uncaught-exception semantics of
the write callback's rethrow: a throw inside the fs.writeFile callback is
an uncaught exception that terminates the process. Two event-loop facts
make the model deterministic. First, after calling writeFile the loop
continues synchronously into the next variety's getSpirits call, so the
next crawl is always initiated before any pending write callback can run.
Second, the local file write settles — and a failing one's callback
throws — before the next variety's multi-page networked crawl can finish,
so nothing past the failing write completes: its own artifact and every
later one are never written, no later crawl finishes, and the run dies
with the write's error. -/
def saveAllSpiritsRun {α ε : Type} (crawl : String → Except CrawlError (List (List α)))
    (writeResult : String → Option ε) : List String → ProcessOutcome α ε
  | [] => ⟨[], [], RunEnd.completed⟩
  | v :: vs =>
    match crawl v with
    | Except.error e => ⟨[v], [], RunEnd.crawlRejected e⟩
    | Except.ok results =>
      match writeResult v with
      | some e => ⟨v :: vs.take 1, [], RunEnd.writeCrashed e⟩
      | none =>
        let rest := saveAllSpiritsRun crawl writeResult vs
        ⟨v :: rest.crawlsStarted, (v, results.flatten) :: rest.written, rest.endState⟩

/-- End state of the control-flow model, read as a run end. -/
def runEndOfFatal {ε : Type} : Option CrawlError → RunEnd ε
  | none => RunEnd.completed
  | some e => RunEnd.crawlRejected e

/-- On a run with no write errors the refined process model and the
loop-control-flow model coincide. -/
theorem saveAllSpiritsRun_agrees_without_write_errors {α ε : Type}
    (crawl : String → Except CrawlError (List (List α))) (writeResult : String → Option ε)
    (vs : List String) (h : ∀ v ∈ vs, writeResult v = none) :
    (saveAllSpiritsRun crawl writeResult vs).crawlsStarted =
      (saveAllSpirits crawl writeResult vs).crawled ∧
    (saveAllSpiritsRun crawl writeResult vs).written =
      (saveAllSpirits crawl writeResult vs).written ∧
    (saveAllSpiritsRun crawl writeResult vs).endState =
      runEndOfFatal (saveAllSpirits crawl writeResult vs).fatal := by
  induction vs with
  | nil => exact ⟨rfl, rfl, rfl⟩
  | cons v vs ih =>
    have hv := h v (List.mem_cons_self v vs)
    have ih' := ih fun u hu => h u (List.mem_cons_of_mem v hu)
    rw [saveAllSpiritsRun, saveAllSpirits]
    cases hcv : crawl v with
    | error e => exact ⟨rfl, rfl, rfl⟩
    | ok results =>
      rw [hv]
      exact ⟨congrArg (List.cons v) ih'.1,
        congrArg (List.cons (v, results.flatten)) ih'.2.1, ih'.2.2⟩

/-- Crawl oracle for the C9 runs: every category crawls fine. -/
def okCrawl : String → Except CrawlError (List (List Nat)) := fun _ => Except.ok [[7]]

/-- Write oracle for the C9 runs: the whiskey write fails. -/
def whiskeyWriteFails : String → Option Unit :=
  fun v => if v = "whiskey" then some () else none

/-- Counterexample to C9 as stated: the loop does not await the whiskey
write, so the rum crawl is initiated exactly as if the write had
succeeded — subsequent work does proceed — before the callback's rethrow
kills the run with nothing written. -/
theorem write_error_process_crash_counterexample :
    saveAllSpiritsRun okCrawl whiskeyWriteFails ["whiskey", "rum"] =
      ⟨["whiskey", "rum"], [], RunEnd.writeCrashed ()⟩ := by
  decide

/-- C9 amended: a write failure is always surfaced and never swallowed —
the callback rethrows it as an uncaught exception that is fatal to the
run, so the failing category and everything after it get no artifact and
no later crawl completes — but, because the loop does not await the
write, the next category's crawl is initiated before the failure
manifests: that one piece of subsequent work proceeds as if the write had
succeeded. -/
theorem write_error_fatal_surfaced_next_crawl_initiated {α ε : Type}
    (crawl : String → Except CrawlError (List (List α))) (writeResult : String → Option ε)
    (pre : List String) (v : String) (post : List String) (e : ε)
    (hpre : ∀ u ∈ pre, (crawl u).isOk ∧ writeResult u = none)
    (hv : (crawl v).isOk) (hw : writeResult v = some e) :
    (saveAllSpiritsRun crawl writeResult (pre ++ v :: post)).endState =
      RunEnd.writeCrashed e ∧
    (saveAllSpiritsRun crawl writeResult (pre ++ v :: post)).crawlsStarted =
      pre ++ v :: post.take 1 ∧
    (∀ w ∈ (saveAllSpiritsRun crawl writeResult (pre ++ v :: post)).written, w.1 ∈ pre) := by
  induction pre with
  | nil =>
    rw [List.nil_append, List.nil_append, saveAllSpiritsRun]
    cases hcv : crawl v with
    | error e' => rw [hcv] at hv; cases hv
    | ok results =>
      rw [hw]
      exact ⟨rfl, rfl, fun w hw' => absurd hw' (List.not_mem_nil w)⟩
  | cons u pre ih =>
    obtain ⟨hu1, hu2⟩ := hpre u (List.mem_cons_self u pre)
    have ih' := ih fun u' hu' => hpre u' (List.mem_cons_of_mem u hu')
    rw [List.cons_append, saveAllSpiritsRun]
    cases hcu : crawl u with
    | error e' => rw [hcu] at hu1; cases hu1
    | ok results =>
      rw [hu2]
      refine ⟨ih'.1, ?_, ?_⟩
      · show u :: (saveAllSpiritsRun crawl writeResult (pre ++ v :: post)).crawlsStarted =
          u :: (pre ++ v :: post.take 1)
        rw [ih'.2.1]
      · intro w hw'
        have hw'' : w = (u, results.flatten) ∨
            w ∈ (saveAllSpiritsRun crawl writeResult (pre ++ v :: post)).written :=
          List.mem_cons.mp hw'
        cases hw'' with
        | inl hw1 => rw [hw1]; exact List.mem_cons_self u pre
        | inr hw2 => exact List.mem_cons_of_mem u (ih'.2.2 w hw2)

/-- Witness for the amended C9: with gin, whiskey, rum, agave and the
whiskey write failing, the run dies on the write error, the rum crawl was
initiated but neither rum nor agave got an artifact, and only gin's
artifact exists. -/
theorem write_error_fatal_surfaced_next_crawl_initiated_witness :
    (saveAllSpiritsRun okCrawl whiskeyWriteFails
      (["gin"] ++ "whiskey" :: ["rum", "agave"])).endState = RunEnd.writeCrashed () ∧
    (saveAllSpiritsRun okCrawl whiskeyWriteFails
      (["gin"] ++ "whiskey" :: ["rum", "agave"])).crawlsStarted =
      ["gin"] ++ "whiskey" :: (["rum", "agave"].take 1) ∧
    (∀ w ∈ (saveAllSpiritsRun okCrawl whiskeyWriteFails
      (["gin"] ++ "whiskey" :: ["rum", "agave"])).written, w.1 ∈ ["gin"]) :=
  write_error_fatal_surfaced_next_crawl_initiated okCrawl whiskeyWriteFails
    ["gin"] "whiskey" ["rum", "agave"] () (by decide) rfl rfl

/-- C10: a transport or decode failure while crawling one category rejects
the whole run: the failing category gets no artifact, no category after it
is crawled or written, and the rejection carries out of saveAllSpirits. -/
theorem crawl_failure_aborts_rest_of_run {α ε : Type}
    (crawl : String → Except CrawlError (List (List α))) (writeResult : String → Option ε)
    (pre : List String) (v : String) (post : List String) (e : CrawlError)
    (hpre : ∀ u ∈ pre, (crawl u).isOk) (hv : crawl v = Except.error e) :
    (saveAllSpirits crawl writeResult (pre ++ v :: post)).fatal = some e ∧
    (saveAllSpirits crawl writeResult (pre ++ v :: post)).crawled = pre ++ [v] ∧
    (∀ w ∈ (saveAllSpirits crawl writeResult (pre ++ v :: post)).written, w.1 ∈ pre) := by
  induction pre with
  | nil =>
    rw [List.nil_append, saveAllSpirits, hv]
    exact ⟨rfl, rfl, fun w hw => absurd hw (List.not_mem_nil w)⟩
  | cons u pre ih =>
    have hu := hpre u (List.mem_cons_self u pre)
    have ih' := ih fun u' hu' => hpre u' (List.mem_cons_of_mem u hu')
    rw [List.cons_append, saveAllSpirits]
    cases hcu : crawl u with
    | error e' => rw [hcu] at hu; cases hu
    | ok results =>
      cases hw : writeResult u with
      | some e' =>
        refine ⟨ih'.1, ?_, ?_⟩
        · rw [List.cons_append]
          show u :: (saveAllSpirits crawl writeResult (pre ++ v :: post)).crawled =
            u :: (pre ++ [v])
          rw [ih'.2.1]
        · intro w hw'
          exact List.mem_cons_of_mem u (ih'.2.2 w hw')
      | none =>
        refine ⟨ih'.1, ?_, ?_⟩
        · rw [List.cons_append]
          show u :: (saveAllSpirits crawl writeResult (pre ++ v :: post)).crawled =
            u :: (pre ++ [v])
          rw [ih'.2.1]
        · intro w hw'
          rw [List.mem_cons] at hw'
          cases hw' with
          | inl hw1 => rw [hw1]; exact List.mem_cons_self u pre
          | inr hw2 => exact List.mem_cons_of_mem u (ih'.2.2 w hw2)

/-- Crawl oracle for the C10 witness: rum fails with a decode error,
everything else crawls fine. -/
def rumDecodeFails : String → Except CrawlError (List (List Nat)) :=
  fun v => if v = "rum" then Except.error CrawlError.decode else Except.ok [[7]]

/-- Witness for C10: with categories whiskey, rum, agave and rum failing,
the run rejects with the decode error, only whiskey and rum were crawled,
and every written artifact belongs to whiskey. -/
theorem crawl_failure_aborts_rest_of_run_witness :
    (saveAllSpirits rumDecodeFails (fun _ => (none : Option Unit))
      (["whiskey"] ++ "rum" :: ["agave"])).fatal = some CrawlError.decode ∧
    (saveAllSpirits rumDecodeFails (fun _ => (none : Option Unit))
      (["whiskey"] ++ "rum" :: ["agave"])).crawled = ["whiskey"] ++ ["rum"] ∧
    (∀ w ∈ (saveAllSpirits rumDecodeFails (fun _ => (none : Option Unit))
      (["whiskey"] ++ "rum" :: ["agave"])).written, w.1 ∈ ["whiskey"]) :=
  crawl_failure_aborts_rest_of_run rumDecodeFails (fun _ => none) ["whiskey"] "rum"
    ["agave"] CrawlError.decode (by decide) rfl
